import Mathlib

set_option maxRecDepth 4096

/-!
Verification of the incremental DFA matcher core of the `matchers` crate
(`src/lib.rs`), shallowly embedded in Lean.

The automaton itself is an external collaborator (the `regex_automata`
crate): the core consumes it only through four capabilities — start state,
byte-indexed transition, dead-state test and match-state test — so it is
embedded as an abstract structure `DFA` over an arbitrary state type.
Bytes are `Fin 256`.  Fallible Rust operations (`fmt::Write::write_str`,
`io::Write::write`, `read_matches`, the `expect` in `debug_matches` /
`display_matches`) are embedded with `Except`.
-/

namespace Matchers

/-- A byte of input, as in the Rust `u8` alphabet of the automaton. -/
abbrev Byte := Fin 256

/-- The four-capability automaton contract of `regex_automata::DFA`
consumed by the core (start state, transition, dead test, match test). -/
structure DFA (S : Type) where
  start_state : S
  next_state : S → Byte → S
  is_dead_state : S → Bool
  is_match_state : S → Bool

/-- Naive run: fold every byte through the transition function, no early
exit.  This is the reference semantics the spec compares against. -/
def DFA.run (a : DFA S) (st : S) (bytes : List Byte) : S :=
  bytes.foldl a.next_state st

/-- Well-formedness of a compiled automaton, as the spec assumes of any
successfully constructed pattern: dead states are absorbing, and a dead
state is never a match state. -/
def DFA.WellFormed (a : DFA S) : Prop :=
  (∀ s b, a.is_dead_state s = true → a.is_dead_state (a.next_state s b) = true) ∧
  (∀ s, a.is_dead_state s = true → a.is_match_state s = false)

/-- Embeds `Matcher` from `src/lib.rs`: a borrowed automaton plus the mutable
current-state cell. -/
structure Matcher (S : Type) where
  automaton : DFA S
  state : S

/-- Embeds `Matcher::new`: start at the automaton's start state. -/
def Matcher.new (a : DFA S) : Matcher S :=
  { automaton := a, state := a.start_state }

/-- Embeds `Matcher::advance`: transition the current state on one input byte. -/
def Matcher.advance (m : Matcher S) (input : Byte) : Matcher S :=
  { m with state := m.automaton.next_state m.state input }

/-- Embeds `Matcher::is_matched`: is the current state a match state. -/
def Matcher.is_matched (m : Matcher S) : Bool :=
  m.automaton.is_match_state m.state

/-- Embeds `Matcher::matches`: feed each byte through `advance`; after each byte,
if the state is dead, return `false` immediately; otherwise finish with
`is_matched`. -/
def Matcher.matches : Matcher S → List Byte → Bool
  | m, [] => m.is_matched
  | m, b :: rest =>
    let m' := m.advance b
    if m'.automaton.is_dead_state m'.state then false
    else m'.matches rest

/-- The loop body of `fmt::Write::write_str for Matcher`: advance on each
byte of the chunk, breaking out of the loop once the state is dead. -/
def Matcher.feed : Matcher S → List Byte → Matcher S
  | m, [] => m
  | m, b :: rest =>
    let m' := m.advance b
    if m'.automaton.is_dead_state m'.state then m'
    else m'.feed rest

/-- Embeds `fmt::Write::write_str for Matcher`: run the feed loop, then return
`Ok(())` unconditionally (the source has no error path). -/
def Matcher.write_str (m : Matcher S) (chunk : List Byte) :
    Except Unit (Matcher S) :=
  .ok (m.feed chunk)

/-- The loop of `io::Write::write for Matcher`: advance on each byte,
increment the consumed count, break once dead. -/
def Matcher.writeLoop : Matcher S → List Byte → Nat → Matcher S × Nat
  | m, [], i => (m, i)
  | m, b :: rest, i =>
    let m' := m.advance b
    let i' := i + 1
    if m'.automaton.is_dead_state m'.state then (m', i')
    else m'.writeLoop rest i'

/-- Embeds `io::Write::write for Matcher`: run the loop from count 0 and return
`Ok(i)` with the number of bytes consumed (the source has no error path). -/
def Matcher.write (m : Matcher S) (bytes : List Byte) :
    Except Unit (Matcher S × Nat) :=
  .ok (m.writeLoop bytes 0)

/-- The sequence of `write_str` calls a terminating Debug/Display
rendering performs: each chunk goes through the text sink, errors
propagate (as `write!` does through the formatting machinery). -/
def Matcher.writeChunks : Matcher S → List (List Byte) → Except Unit (Matcher S)
  | m, [] => .ok m
  | m, c :: rest =>
    match m.write_str c with
    | .ok m' => m'.writeChunks rest
    | .error e => .error e

/-- Embeds `Matcher::debug_matches`: stream the value's Debug rendering (given as
its chunk sequence) into the text sink; the `expect` panic on a failed
write is modelled as the `Except` error branch; then `is_matched`. -/
def Matcher.debug_matches (m : Matcher S) (chunks : List (List Byte)) :
    Except Unit Bool :=
  match m.writeChunks chunks with
  | .ok m' => .ok m'.is_matched
  | .error e => .error e

/-- Embeds `Matcher::display_matches`: same body as `debug_matches`, over the
value's Display rendering. -/
def Matcher.display_matches (m : Matcher S) (chunks : List (List Byte)) :
    Except Unit Bool :=
  match m.writeChunks chunks with
  | .ok m' => .ok m'.is_matched
  | .error e => .error e

/-- Embeds `Matcher::read_matches`: pull items from the byte source; a failed
read propagates its error via `?`; otherwise advance, return `Ok(false)`
on dead, and `Ok(is_matched())` on exhaustion. -/
def Matcher.read_matches {ε : Type} : Matcher S → List (Except ε Byte) → Except ε Bool
  | m, [] => .ok m.is_matched
  | m, r :: rest =>
    match r with
    | .error e => .error e
    | .ok b =>
      let m' := m.advance b
      if m'.automaton.is_dead_state m'.state then .ok false
      else m'.read_matches rest

/-- Embeds `Pattern`: owns one compiled automaton. -/
structure Pattern (S : Type) where
  automaton : DFA S

/-- Embeds `Pattern::matcher` (via `ToMatcher`): a fresh `Matcher` at the
automaton's start state. -/
def Pattern.matcher (p : Pattern S) : Matcher S :=
  Matcher.new p.automaton

/-- Embeds `Pattern::matches`: thin forwarding to a freshly created matcher. -/
def Pattern.matches (p : Pattern S) (s : List Byte) : Bool :=
  p.matcher.matches s

/-- Embeds `Pattern::debug_matches`: thin forwarding to a freshly created matcher. -/
def Pattern.debug_matches (p : Pattern S) (chunks : List (List Byte)) :
    Except Unit Bool :=
  p.matcher.debug_matches chunks

/-- Embeds `Pattern::display_matches`: thin forwarding to a freshly created matcher. -/
def Pattern.display_matches (p : Pattern S) (chunks : List (List Byte)) :
    Except Unit Bool :=
  p.matcher.display_matches chunks

/-- Embeds `Pattern::read_matches`: thin forwarding to a freshly created matcher. -/
def Pattern.read_matches {ε : Type} (p : Pattern S) (src : List (Except ε Byte)) :
    Except ε Bool :=
  p.matcher.read_matches src

/-- A concrete well-formed three-state automaton (the DFA of the literal
pattern consisting of the single byte 97): state 0 is the start, state 1
the match state, state 2 the dead state. -/
def exA : DFA (Fin 3) where
  start_state := 0
  next_state s b := if s = 0 ∧ b = (97 : Byte) then 1 else 2
  is_dead_state s := s == 2
  is_match_state s := s == 1

/-- Spec-side predicate for the reader claim: the walk from `st` stays
out of the dead states after each byte of `bytes` (so a read loop
consuming `bytes` never takes the early `Ok(false)` exit). -/
def DFA.aliveAlong : DFA S → S → List Byte → Bool
  | _, _, [] => true
  | a, st, b :: rest =>
    let st' := a.next_state st b
    !a.is_dead_state st' && a.aliveAlong st' rest

/-! ### Basic lemmas about the embedding -/

/-- Unfolding `advance` on an explicit matcher: only the state cell changes. -/
theorem Matcher.advance_mk (a : DFA S) (st : S) (b : Byte) :
    Matcher.advance ⟨a, st⟩ b = ⟨a, a.next_state st b⟩ := rfl

/-- Folding `advance` over a byte list is the naive `run`. -/
theorem foldl_advance (a : DFA S) (st : S) (bytes : List Byte) :
    List.foldl Matcher.advance ⟨a, st⟩ bytes = ⟨a, a.run st bytes⟩ := by
  induction bytes generalizing st with
  | nil => rfl
  | cons b rest ih =>
    simp only [List.foldl_cons, Matcher.advance_mk, DFA.run, List.foldl_cons]
    exact ih (a.next_state st b)

/-- In a well-formed automaton the naive run never leaves the dead states. -/
theorem run_dead_of_dead (a : DFA S) (h : a.WellFormed) (st : S)
    (hd : a.is_dead_state st = true) (bytes : List Byte) :
    a.is_dead_state (a.run st bytes) = true := by
  induction bytes generalizing st with
  | nil => exact hd
  | cons b rest ih =>
    simp only [DFA.run, List.foldl_cons]
    exact ih (a.next_state st b) (h.1 st b hd)

/-- Running `matches` from a dead state of a well-formed automaton gives `false`. -/
theorem matches_dead (a : DFA S) (h : a.WellFormed) (st : S)
    (hd : a.is_dead_state st = true) (bytes : List Byte) :
    Matcher.matches ⟨a, st⟩ bytes = false := by
  cases bytes with
  | nil =>
    simp only [Matcher.matches, Matcher.is_matched]
    exact h.2 st hd
  | cons b rest =>
    simp only [Matcher.matches, Matcher.advance_mk]
    rw [h.1 st b hd]
    simp

/-- Generalized early-exit equivalence: from any state of a well-formed
automaton, `matches` agrees with the naive run's match test. -/
theorem matches_eq_run (a : DFA S) (h : a.WellFormed) (st : S) (bytes : List Byte) :
    Matcher.matches ⟨a, st⟩ bytes = a.is_match_state (a.run st bytes) := by
  induction bytes generalizing st with
  | nil => rfl
  | cons b rest ih =>
    simp only [Matcher.matches, Matcher.advance_mk, DFA.run, List.foldl_cons]
    by_cases hd : a.is_dead_state (a.next_state st b) = true
    · rw [hd]
      simp only [if_true]
      exact (h.2 _ (run_dead_of_dead a h _ hd rest)).symm
    · rw [Bool.not_eq_true] at hd
      rw [hd]
      simp only [Bool.false_eq_true, if_false]
      exact ih (a.next_state st b)

/-! ### Claim theorems -/

/-- Claim C1: for a well-formed automaton, `Matcher::matches` — which
stops at the first dead state — returns the same boolean as naively
running every byte through the transition function to completion and
testing whether the final state is a match state. -/
theorem C1_matches_eq_naive (a : DFA S) (h : a.WellFormed) (bytes : List Byte) :
    (Matcher.new a).matches bytes = a.is_match_state (a.run a.start_state bytes) :=
  matches_eq_run a h a.start_state bytes

/-- Witness for C1 on the concrete automaton `exA`. -/
theorem C1_matches_eq_naive_witness :
    (Matcher.new exA).matches [(97 : Byte), 98] =
      exA.is_match_state (exA.run exA.start_state [(97 : Byte), 98]) :=
  C1_matches_eq_naive exA (by constructor <;> decide) [(97 : Byte), 98]

/-- Claim C5: once the current state is dead, it remains dead after every
subsequent `advance` call, for any byte sequence, in a well-formed
automaton. -/
theorem C5_dead_absorbing (a : DFA S) (h : a.WellFormed) (st : S)
    (hd : a.is_dead_state st = true) (bytes : List Byte) :
    (Matcher.mk a st).automaton.is_dead_state
      (List.foldl Matcher.advance ⟨a, st⟩ bytes).state = true := by
  rw [foldl_advance]
  exact run_dead_of_dead a h st hd bytes

/-- Witness for C5: state 2 of `exA` is dead and stays dead. -/
theorem C5_dead_absorbing_witness :
    exA.is_dead_state (2 : Fin 3) = true ∧
      (Matcher.mk exA 2).automaton.is_dead_state
        (List.foldl Matcher.advance ⟨exA, 2⟩ [(97 : Byte), 98]).state = true :=
  ⟨by decide, C5_dead_absorbing exA (by constructor <;> decide) 2 (by decide) [(97 : Byte), 98]⟩

/-- Unfolding `run` on a cons. -/
theorem run_cons (a : DFA S) (st : S) (b : Byte) (l : List Byte) :
    a.run st (b :: l) = a.run (a.next_state st b) l := rfl

/-- Closed-form characterization of `matches` from any state: `false` iff
some nonempty prefix of the input drives the automaton to a dead state,
otherwise the match test of the full naive run. -/
theorem matches_char (a : DFA S) (st : S) (bytes : List Byte) :
    Matcher.matches ⟨a, st⟩ bytes =
      (((List.range bytes.length).all fun k =>
          !a.is_dead_state (a.run st (bytes.take (k + 1)))) &&
        a.is_match_state (a.run st bytes)) := by
  induction bytes generalizing st with
  | nil => simp [Matcher.matches, Matcher.is_matched, DFA.run]
  | cons b rest ih =>
    simp only [Matcher.matches, Matcher.advance_mk]
    cases hd : a.is_dead_state (a.next_state st b) with
    | true =>
      simp only [if_true]
      have h0 : ((List.range (b :: rest).length).all fun k =>
          !a.is_dead_state (a.run st ((b :: rest).take (k + 1)))) = false := by
        rw [List.all_eq_false]
        refine ⟨0, ?_, ?_⟩
        · simp
        · simp [List.take_succ_cons, run_cons, DFA.run, hd]
      rw [h0, Bool.false_and]
    | false =>
      simp only [Bool.false_eq_true, if_false]
      rw [ih (a.next_state st b)]
      simp only [List.length_cons, List.range_succ_eq_map, List.all_cons,
        List.all_map, Function.comp, List.take_succ_cons, run_cons,
        List.take_zero, DFA.run, List.foldl_cons, List.foldl_nil, hd,
        Bool.not_false, Bool.true_and]
      rfl

/-- Claim C2: from the start state, `Matcher::matches` returns `false`
exactly when some byte of the input takes the walk to a dead state
(stopping there), and otherwise the match test of the final state after
all bytes. -/
theorem C2_matches_operational (a : DFA S) (bytes : List Byte) :
    (Matcher.new a).matches bytes =
      (((List.range bytes.length).all fun k =>
          !a.is_dead_state (a.run a.start_state (bytes.take (k + 1)))) &&
        a.is_match_state (a.run a.start_state bytes)) :=
  matches_char a a.start_state bytes

/-- Characterization of the byte-sink loop: it consumes some prefix of
length `n`, lands on the naive run of that prefix, adds `n` to the
incoming count, stops early only on a dead state, and consumes at least
one byte of a nonempty chunk. -/
theorem writeLoop_char (a : DFA S) (bytes : List Byte) :
    ∀ (st : S) (i : Nat), ∃ n,
      Matcher.writeLoop ⟨a, st⟩ bytes i = (⟨a, a.run st (bytes.take n)⟩, i + n) ∧
      n ≤ bytes.length ∧
      (n = bytes.length ∨ a.is_dead_state (a.run st (bytes.take n)) = true) ∧
      (bytes ≠ [] → 1 ≤ n) := by
  induction bytes with
  | nil =>
    intro st i
    exact ⟨0, rfl, Nat.le_refl 0, Or.inl rfl, fun hne => absurd rfl hne⟩
  | cons b rest ih =>
    intro st i
    by_cases hd : a.is_dead_state (a.next_state st b) = true
    · refine ⟨1, ?_, ?_, ?_, fun _ => Nat.le_refl 1⟩
      · simp [Matcher.writeLoop, Matcher.advance_mk, hd, List.take_succ_cons,
          run_cons, DFA.run]
      · simp
      · right
        simpa [List.take_succ_cons, run_cons, DFA.run] using hd
    · obtain ⟨n, heq, hle, hdisj, _⟩ := ih (a.next_state st b) (i + 1)
      refine ⟨n + 1, ?_, ?_, ?_, fun _ => Nat.succ_le_succ (Nat.zero_le n)⟩
      · simp only [Matcher.writeLoop, Matcher.advance_mk]
        rw [if_neg hd, heq, List.take_succ_cons, run_cons]
        simp only [Prod.mk.injEq]
        exact ⟨by trivial, by omega⟩
      · simpa using Nat.succ_le_succ hle
      · cases hdisj with
        | inl hl => left; simp [hl]
        | inr hr =>
          right
          rw [List.take_succ_cons, run_cons]
          exact hr

/-- Claim C6: the byte sink `io::Write::write` never fails: it returns
`Ok(n)` where `n` is the number of bytes consumed, `n` is at most the
chunk length, the resulting state is the naive run of the consumed
prefix, and a short count only happens on a dead state. -/
theorem C6_byte_sink_short_write (a : DFA S) (st : S) (bytes : List Byte) :
    ∃ m' n, Matcher.write ⟨a, st⟩ bytes = .ok (m', n) ∧
      n ≤ bytes.length ∧
      m' = ⟨a, a.run st (bytes.take n)⟩ ∧
      (n = bytes.length ∨ a.is_dead_state m'.state = true) := by
  obtain ⟨n, heq, hle, hdisj, _⟩ := writeLoop_char a bytes st 0
  refine ⟨⟨a, a.run st (bytes.take n)⟩, n, ?_, hle, rfl, hdisj⟩
  unfold Matcher.write
  rw [heq, Nat.zero_add]

/-- Claim C10: on a nonempty chunk the byte sink always reports at least
one byte consumed, even when the matcher is already in a dead state. -/
theorem C10_byte_sink_consumes_one (a : DFA S) (st : S) (bytes : List Byte)
    (h : bytes ≠ []) :
    ∃ m' n, Matcher.write ⟨a, st⟩ bytes = .ok (m', n) ∧ 1 ≤ n ∧ n ≤ bytes.length := by
  obtain ⟨n, heq, hle, _, hpos⟩ := writeLoop_char a bytes st 0
  refine ⟨⟨a, a.run st (bytes.take n)⟩, n, ?_, hpos h, hle⟩
  unfold Matcher.write
  rw [heq, Nat.zero_add]

/-- Witness for C10: the byte sink of a matcher already in the dead state
2 of `exA` still consumes one byte of a nonempty chunk. -/
theorem C10_byte_sink_consumes_one_witness :
    ([(98 : Byte)] ≠ ([] : List Byte)) ∧
      ∃ m' n, Matcher.write ⟨exA, 2⟩ [(98 : Byte)] = .ok (m', n) ∧
        1 ≤ n ∧ n ≤ [(98 : Byte)].length :=
  ⟨by decide, C10_byte_sink_consumes_one exA 2 [(98 : Byte)] (by decide)⟩

/-- The text-sink loop and the byte-sink loop walk states identically. -/
theorem feed_eq_writeLoop (bytes : List Byte) :
    ∀ (m : Matcher S) (i : Nat),
      Matcher.feed m bytes = (Matcher.writeLoop m bytes i).1 := by
  induction bytes with
  | nil => intro m i; rfl
  | cons b rest ih =>
    intro m i
    simp only [Matcher.feed, Matcher.writeLoop]
    by_cases hd : (m.advance b).automaton.is_dead_state (m.advance b).state = true
    · rw [if_pos hd, if_pos hd]
    · rw [if_neg hd, if_neg hd]
      exact ih _ _

/-- Claim C7: the text sink `fmt::Write::write_str` always returns `Ok`:
it feeds the chunk byte by byte, stopping early only on a dead state, and
dead-state truncation is never surfaced as a write error. -/
theorem C7_text_sink_never_fails (a : DFA S) (st : S) (chunk : List Byte) :
    ∃ m', Matcher.write_str ⟨a, st⟩ chunk = .ok m' ∧
      ∃ n, n ≤ chunk.length ∧ m' = ⟨a, a.run st (chunk.take n)⟩ ∧
        (n = chunk.length ∨ a.is_dead_state m'.state = true) := by
  obtain ⟨n, heq, hle, hdisj, _⟩ := writeLoop_char a chunk st 0
  refine ⟨⟨a, a.run st (chunk.take n)⟩, ?_, n, hle, rfl, hdisj⟩
  unfold Matcher.write_str
  rw [feed_eq_writeLoop chunk _ 0, heq]

/-- The chunk-streaming loop never produces an error. -/
theorem writeChunks_ok (chunks : List (List Byte)) :
    ∀ m : Matcher S, ∃ m', Matcher.writeChunks m chunks = .ok m' := by
  induction chunks with
  | nil => intro m; exact ⟨m, rfl⟩
  | cons c rest ih =>
    intro m
    obtain ⟨m', h⟩ := ih (m.feed c)
    exact ⟨m', h⟩

/-- Claim C8: `debug_matches` and `display_matches` are total and never
fail: the `expect` on the streamed write is never triggered, because the
matcher's write implementation always succeeds.  (`advance`, `is_matched`
and `matches` are total by construction of the embedding.) -/
theorem C8_match_ops_total (a : DFA S) (st : S) (chunks : List (List Byte)) :
    (∃ b, Matcher.debug_matches ⟨a, st⟩ chunks = .ok b) ∧
    (∃ b, Matcher.display_matches ⟨a, st⟩ chunks = .ok b) := by
  obtain ⟨m', h⟩ := writeChunks_ok chunks ⟨a, st⟩
  constructor
  · refine ⟨m'.is_matched, ?_⟩
    unfold Matcher.debug_matches
    rw [h]
  · refine ⟨m'.is_matched, ?_⟩
    unfold Matcher.display_matches
    rw [h]

/-- The text-sink loop never changes the automaton component. -/
theorem feed_automaton (bytes : List Byte) :
    ∀ m : Matcher S, (Matcher.feed m bytes).automaton = m.automaton := by
  induction bytes with
  | nil => intro m; rfl
  | cons b rest ih =>
    intro m
    simp only [Matcher.feed]
    by_cases hd : (m.advance b).automaton.is_dead_state (m.advance b).state = true
    · rw [if_pos hd]; rfl
    · rw [if_neg hd]
      rw [ih (m.advance b)]
      rfl

/-- Feeding a chunk and then matching a suffix is matching the chunk
prepended to the suffix, for a well-formed automaton. -/
theorem feed_matches_append (a : DFA S) (h : a.WellFormed) (c : List Byte) :
    ∀ (st : S) (bs : List Byte),
      Matcher.matches (Matcher.feed ⟨a, st⟩ c) bs = Matcher.matches ⟨a, st⟩ (c ++ bs) := by
  induction c with
  | nil => intro st bs; rfl
  | cons b c' ih =>
    intro st bs
    simp only [Matcher.feed, Matcher.advance_mk, List.cons_append]
    by_cases hd : a.is_dead_state (a.next_state st b) = true
    · rw [if_pos hd, matches_dead a h _ hd bs]
      simp only [Matcher.matches, Matcher.advance_mk]
      rw [if_pos hd]
    · rw [if_neg hd, ih (a.next_state st b) bs]
      simp only [Matcher.matches, Matcher.advance_mk]
      rw [if_neg hd]

/-- Streaming chunks through the text sink and then testing the match
state gives the same boolean as `matches` on the chunks' concatenation,
for a well-formed automaton. -/
theorem writeChunks_is_matched (a : DFA S) (h : a.WellFormed) (chunks : List (List Byte)) :
    ∀ (st : S) (m' : Matcher S), Matcher.writeChunks ⟨a, st⟩ chunks = .ok m' →
      m'.is_matched = Matcher.matches ⟨a, st⟩ chunks.flatten := by
  induction chunks with
  | nil =>
    intro st m' heq
    simp only [Matcher.writeChunks] at heq
    cases heq
    rfl
  | cons c rest ih =>
    intro st m' heq
    rcases hfm : Matcher.feed ⟨a, st⟩ c with ⟨a2, s1⟩
    have ha2 : a2 = a := by
      have hfa := feed_automaton c (⟨a, st⟩ : Matcher S)
      rw [hfm] at hfa
      exact hfa
    rw [ha2] at hfm
    have heq' : Matcher.writeChunks ⟨a, s1⟩ rest = .ok m' := by
      simp only [Matcher.writeChunks, Matcher.write_str] at heq
      rw [hfm] at heq
      exact heq
    rw [ih s1 m' heq']
    have hstep : Matcher.matches ⟨a, s1⟩ rest.flatten =
        Matcher.matches ⟨a, st⟩ (c ++ rest.flatten) := by
      rw [← hfm]
      exact feed_matches_append a h c st rest.flatten
    rw [hstep, List.flatten_cons]

/-- Claim C3: for a well-formed automaton, streaming a terminating
Debug/Display rendering chunk by chunk through the text sink returns
`Ok` of the same boolean as `matches` on the fully rendered buffer (the
chunks' concatenation), regardless of how the rendering is split. -/
theorem C3_stream_eq_buffer (a : DFA S) (h : a.WellFormed) (chunks : List (List Byte)) :
    (Matcher.new a).debug_matches chunks = .ok ((Matcher.new a).matches chunks.flatten) ∧
    (Matcher.new a).display_matches chunks = .ok ((Matcher.new a).matches chunks.flatten) := by
  obtain ⟨m', hm⟩ := writeChunks_ok chunks (Matcher.new a)
  have hv : m'.is_matched = Matcher.matches ⟨a, a.start_state⟩ chunks.flatten :=
    writeChunks_is_matched a h chunks a.start_state m' hm
  constructor
  · unfold Matcher.debug_matches
    rw [hm]
    show Except.ok m'.is_matched = Except.ok ((Matcher.new a).matches chunks.flatten)
    rw [hv]
    rfl
  · unfold Matcher.display_matches
    rw [hm]
    show Except.ok m'.is_matched = Except.ok ((Matcher.new a).matches chunks.flatten)
    rw [hv]
    rfl

/-- Witness for C3 on `exA` with the rendering split into two chunks. -/
theorem C3_stream_eq_buffer_witness :
    (Matcher.new exA).debug_matches [[(97 : Byte)], [98]] =
        .ok ((Matcher.new exA).matches [[(97 : Byte)], [98]].flatten) ∧
      (Matcher.new exA).display_matches [[(97 : Byte)], [98]] =
        .ok ((Matcher.new exA).matches [[(97 : Byte)], [98]].flatten) :=
  C3_stream_eq_buffer exA (by constructor <;> decide) [[(97 : Byte)], [98]]

/-- A source of pure `Ok` bytes runs through `read_matches` exactly as
`matches` runs through the byte list. -/
theorem read_matches_map_ok {ε : Type} (a : DFA S) (bytes : List Byte) :
    ∀ st : S, Matcher.read_matches ⟨a, st⟩ (bytes.map Except.ok : List (Except ε Byte)) =
      .ok (Matcher.matches ⟨a, st⟩ bytes) := by
  induction bytes with
  | nil => intro st; rfl
  | cons b rest ih =>
    intro st
    simp only [List.map_cons, Matcher.read_matches, Matcher.matches, Matcher.advance_mk]
    by_cases hd : a.is_dead_state (a.next_state st b) = true
    · rw [if_pos hd, if_pos hd]
    · rw [if_neg hd, if_neg hd]
      exact ih (a.next_state st b)

/-- If the walk stays alive through the `Ok` prefix, `read_matches`
reaches the failed read and propagates its error verbatim. -/
theorem read_matches_error {ε : Type} (a : DFA S) (pre : List Byte) :
    ∀ (st : S) (e : ε) (rest : List (Except ε Byte)),
      a.aliveAlong st pre = true →
        Matcher.read_matches ⟨a, st⟩ (pre.map Except.ok ++ .error e :: rest) = .error e := by
  induction pre with
  | nil => intro st e rest _; rfl
  | cons b pre' ih =>
    intro st e rest halive
    simp only [DFA.aliveAlong, Bool.and_eq_true, Bool.not_eq_eq_eq_not, Bool.not_true] at halive
    simp only [List.map_cons, List.cons_append, Matcher.read_matches, Matcher.advance_mk]
    rw [if_neg (by simp [halive.1])]
    exact ih (a.next_state st b) e rest halive.2

/-- Claim C4: `read_matches` on an error-free source returns `Ok` of the
boolean `matches` gives on the full concatenation of the source's bytes;
and when a read fails before the matcher goes dead, that error is
propagated verbatim with no boolean result. -/
theorem C4_read_matches_spec (ε : Type) (a : DFA S) :
    (∀ bytes : List Byte,
        (Matcher.new a).read_matches (bytes.map Except.ok : List (Except ε Byte)) =
          .ok ((Matcher.new a).matches bytes)) ∧
    (∀ (pre : List Byte) (e : ε) (rest : List (Except ε Byte)),
        a.aliveAlong a.start_state pre = true →
          (Matcher.new a).read_matches (pre.map Except.ok ++ .error e :: rest) = .error e) :=
  ⟨fun bytes => read_matches_map_ok a bytes a.start_state,
   fun pre e rest halive => read_matches_error a pre a.start_state e rest halive⟩

/-- Witness for C4 on `exA`: an error-free one-byte source agrees with
`matches`, and a source failing after one live byte propagates error 5. -/
theorem C4_read_matches_spec_witness :
    ((Matcher.new exA).read_matches (([(97 : Byte)]).map Except.ok : List (Except Nat Byte)) =
        .ok ((Matcher.new exA).matches [(97 : Byte)])) ∧
      ((Matcher.new exA).read_matches
          ((([(97 : Byte)]).map Except.ok : List (Except Nat Byte)) ++ .error 5 :: []) =
        .error 5) := by
  have h := C4_read_matches_spec Nat exA
  exact ⟨h.1 [(97 : Byte)], h.2 [(97 : Byte)] 5 [] (by decide)⟩

/-- Claim C9: `Pattern::matcher` always produces a fresh matcher at the
automaton's start state; two matchers obtained from the same pattern give
identical results on the same input, and the pattern-level `matches` is
thin forwarding to a fresh matcher, observing no state from prior calls. -/
theorem C9_matcher_fresh (p : Pattern S) (m1 m2 : Matcher S)
    (h1 : m1 = p.matcher) (h2 : m2 = p.matcher) :
    m1.state = p.automaton.start_state ∧
      (∀ input : List Byte, m1.matches input = m2.matches input) ∧
      (∀ input : List Byte, p.matches input = m1.matches input) := by
  subst h1
  subst h2
  exact ⟨rfl, fun _ => rfl, fun _ => rfl⟩

/-- Witness for C9 on the pattern wrapping `exA`. -/
theorem C9_matcher_fresh_witness :
    (Pattern.mk exA).matcher.state = (Pattern.mk exA).automaton.start_state ∧
      ((Pattern.mk exA).matcher.matches [(97 : Byte)] =
        (Pattern.mk exA).matcher.matches [(97 : Byte)]) ∧
      ((Pattern.mk exA).matches [(97 : Byte)] =
        (Pattern.mk exA).matcher.matches [(97 : Byte)]) := by
  have h := C9_matcher_fresh (Pattern.mk exA) (Pattern.mk exA).matcher
    (Pattern.mk exA).matcher rfl rfl
  exact ⟨h.1, h.2.1 [(97 : Byte)], h.2.2 [(97 : Byte)]⟩

end Matchers
